import Mathlib

/-!
Shallow embedding of the rabbit-playground utilities: a publisher that sends
messages with publisher confirms, a subscriber that consumes and acknowledges
deliveries, and a log-line stripping tool. Pure functions below transcribe the
control flow of src/publish/src/main.rs, src/subscribe/src/main.rs and
src/log-parser/src/main.rs; side effects (logging, acking, closing) are
reified as explicit action lists.
-/

namespace Rabbit

/-- A subset of the AMQP field-value variants carried in message headers;
only the long-string variant is produced by the publisher, and the consumer
renders every non-long-string variant as an empty string. -/
inductive AMQPValue where
  | longString (s : String)
  | shortString (s : String)
  | boolean (b : Bool)
  | longInt (i : Int)
  | timestamp (t : Nat)
  | void
deriving DecidableEq

/-- Embeds AMQPValue::as_long_string: only the long-string variant yields a value. -/
def AMQPValue.as_long_string : AMQPValue → Option String
  | AMQPValue.longString s => some s
  | _ => none

/-- A field table is a finite map from header names to values; embedded as an
association list whose insert replaces the entry for an existing key (the
observable behaviour of the BTreeMap underlying lapin's FieldTable). -/
abbrev FieldTable := List (String × AMQPValue)

/-- Map insert: replace the value at an existing key, else append the new entry. -/
def ftInsert : FieldTable → String → AMQPValue → FieldTable
  | [], k, v => [(k, v)]
  | p :: rest, k, v => if p.1 == k then (k, v) :: rest else p :: ftInsert rest k v

/-- Map lookup on the association list. -/
def findVal (k : String) : FieldTable → Option AMQPValue
  | [] => none
  | p :: rest => if p.1 == k then some p.2 else findVal k rest

/-- The keys of a field table, in entry order. -/
def keysOf (ft : FieldTable) : List String := ft.map Prod.fst

/-- First segment of a Rust char-split: the characters before the first separator. -/
def firstSegment (cs : List Char) : List Char := cs.takeWhile (fun c => c != '=')

/-- What follows the first separator, or none when the list has no separator
(mirroring the second .next() of a Rust split iterator returning None). -/
def afterFirst (cs : List Char) : Option (List Char) :=
  match cs.dropWhile (fun c => c != '=') with
  | [] => none
  | _ :: rest => some rest

/-- Embeds the per-entry pattern match in Cli::headers: two .next() calls on
s.split; an entry with no separator yields none (and is warned about),
otherwise the key is the first split segment and the value the second. -/
def parseEntry (s : String) : Option (String × String) :=
  let cs := s.toList
  match afterFirst cs with
  | none => none
  | some rest => some (String.mk (firstSegment cs), String.mk (firstSegment rest))

/-- Embeds the fold in Cli::headers: the accumulator is the field table plus
the list of entries warned about as unparsable. -/
def headersFold (acc : FieldTable × List String) : List String → FieldTable × List String
  | [] => acc
  | s :: rest =>
    match parseEntry s with
    | some kv => headersFold (ftInsert acc.1 kv.1 (AMQPValue.longString kv.2), acc.2) rest
    | none => headersFold (acc.1, acc.2 ++ [s]) rest

/-- The full header parse of Cli::headers for a present headers flag. -/
def parseHeaders (entries : List String) : FieldTable × List String :=
  headersFold ([], []) entries

/-- Specification-side helper: the value of the last entry in the list that
parses to the given key, if any (used to state last-value-wins). -/
def lastValue (k : String) : List String → Option String
  | [] => none
  | s :: rest =>
    match lastValue k rest with
    | some v => some v
    | none =>
      match parseEntry s with
      | some kv => if kv.1 == k then some kv.2 else none
      | none => none

/-- Embeds Cli::headers: None when the flag is absent; otherwise the folded
field table, even when every entry was invalid. -/
def cliHeaders : Option (List String) → Option FieldTable
  | some entries => some (parseHeaders entries).1
  | none => none

/-- The only message property the source manipulates: the optional headers table. -/
structure BasicProperties where
  headers : Option FieldTable
deriving DecidableEq

/-- Embeds BasicProperties::default(), whose headers property is absent. -/
def defaultProperties : BasicProperties := ⟨none⟩

/-- Embeds BasicProperties::with_headers. -/
def with_headers (_p : BasicProperties) (h : FieldTable) : BasicProperties :=
  ⟨some h⟩

/-- Embeds the match in the publisher's main that builds the outgoing
message properties from Cli::headers. -/
def mkProperties (ho : Option FieldTable) : BasicProperties :=
  match ho with
  | some headers => with_headers defaultProperties headers
  | none => defaultProperties

/-- A broker basic-return message: the reply code and text attached to a
confirm when a mandatory message could not be routed. -/
structure BasicReturnMessage where
  reply_code : Nat
  reply_text : String
deriving DecidableEq

/-- Embeds lapin's Confirm: not-requested, ack, or nack, the latter two
optionally carrying a returned message. -/
inductive Confirm where
  | notRequested
  | ack (msg : Option BasicReturnMessage)
  | nack (msg : Option BasicReturnMessage)
deriving DecidableEq

/-- Embeds Confirm::is_ack. -/
def Confirm.is_ack : Confirm → Bool
  | Confirm.ack _ => true
  | _ => false

/-- Embeds Confirm::is_nack. -/
def Confirm.is_nack : Confirm → Bool
  | Confirm.nack _ => true
  | _ => false

/-- Embeds Confirm::take_message. -/
def Confirm.take_message : Confirm → Option BasicReturnMessage
  | Confirm.ack m => m
  | Confirm.nack m => m
  | Confirm.notRequested => none

/-- The four publish outcomes distinguished by the publisher's logging. -/
inductive ConfirmOutcome where
  | accepted
  | rejectedByBroker (code : Nat) (text : String)
  | notAcknowledged
  | unknown
deriving DecidableEq

/-- Embeds the confirm-handling block of the publisher's main: the outcome
category (which log line fires) and the boolean the block returns (true only
for a plain ack with no returned message). -/
def publishResolve (confirm : Confirm) : ConfirmOutcome × Bool :=
  if confirm.is_ack then
    match confirm.take_message with
    | some message =>
        (ConfirmOutcome.rejectedByBroker message.reply_code message.reply_text, false)
    | none => (ConfirmOutcome.accepted, true)
  else if confirm.is_nack then
    (ConfirmOutcome.notAcknowledged, false)
  else
    (ConfirmOutcome.unknown, false)

/-- A byte in the UTF-8 continuation range 0x80..=0xBF. -/
def isContByte (b : Nat) : Bool := 0x80 ≤ b && b ≤ 0xBF

/-- Embeds the validity check of Rust str::from_utf8 (strict RFC 3629 UTF-8):
ASCII bytes stand alone; leading bytes 0xC2..=0xDF, 0xE0..=0xEF and
0xF0..=0xF4 start 2-, 3- and 4-byte sequences with the usual restricted
ranges on the first continuation byte (ruling out overlong forms,
surrogates and code points above 0x10FFFF); everything else is invalid. -/
def utf8Valid : List Nat → Bool
  | [] => true
  | b :: rest =>
    if b ≤ 0x7F then utf8Valid rest
    else if 0xC2 ≤ b && b ≤ 0xDF then
      match rest with
      | b1 :: rest1 => isContByte b1 && utf8Valid rest1
      | [] => false
    else if b == 0xE0 then
      match rest with
      | b1 :: b2 :: rest2 =>
          (0xA0 ≤ b1 && b1 ≤ 0xBF) && isContByte b2 && utf8Valid rest2
      | _ => false
    else if (0xE1 ≤ b && b ≤ 0xEC) || b == 0xEE || b == 0xEF then
      match rest with
      | b1 :: b2 :: rest2 => isContByte b1 && isContByte b2 && utf8Valid rest2
      | _ => false
    else if b == 0xED then
      match rest with
      | b1 :: b2 :: rest2 =>
          (0x80 ≤ b1 && b1 ≤ 0x9F) && isContByte b2 && utf8Valid rest2
      | _ => false
    else if b == 0xF0 then
      match rest with
      | b1 :: b2 :: b3 :: rest3 =>
          (0x90 ≤ b1 && b1 ≤ 0xBF) && isContByte b2 && isContByte b3 && utf8Valid rest3
      | _ => false
    else if 0xF1 ≤ b && b ≤ 0xF3 then
      match rest with
      | b1 :: b2 :: b3 :: rest3 =>
          isContByte b1 && isContByte b2 && isContByte b3 && utf8Valid rest3
      | _ => false
    else if b == 0xF4 then
      match rest with
      | b1 :: b2 :: b3 :: rest3 =>
          (0x80 ≤ b1 && b1 ≤ 0x8F) && isContByte b2 && isContByte b3 && utf8Valid rest3
      | _ => false
    else false

/-- An incoming delivery: routing key, optional headers, payload bytes and
the broker-assigned delivery tag. -/
structure Delivery where
  routing_key : String
  headers : Option FieldTable
  data : List Nat
  delivery_tag : Nat
deriving DecidableEq

/-- Embeds lapin's DeliveryResult as received by the delegate closure. -/
inductive DeliveryResult where
  | okSome (d : Delivery)
  | okNone
  | errored (e : String)
deriving DecidableEq

/-- Embeds the per-header rendering in the subscriber's delegate: the key,
a separator, and the long-string contents or an empty string for any other
value variant. -/
def renderHeader (k : String) (v : AMQPValue) : String :=
  k ++ "=" ++ (v.as_long_string).getD ""

/-- Embeds the headers match in the subscriber's render: joined key=value
pairs for a present table, an empty string for an absent one. -/
def renderHeaders : Option FieldTable → String
  | some hs => String.intercalate ", " (hs.map (fun p => renderHeader p.1 p.2))
  | none => ""

/-- The observable actions of one delegate invocation: the rendered info
line, an acknowledgement of a delivery tag, or a consume warning. -/
inductive ConsumerAction where
  | render (rk : String) (headerText : String) (payload : List Nat)
  | ack (tag : Nat)
  | warnConsume (e : String)
deriving DecidableEq

/-- Embeds the delegate closure of the subscriber: cancellation does nothing;
a consume error is warned about; a delivery is rendered and acknowledged when
its payload decodes as UTF-8, and otherwise the unwrap panics (second
component true) with no action performed. -/
def handleDelivery : DeliveryResult → List ConsumerAction × Bool
  | DeliveryResult.okNone => ([], false)
  | DeliveryResult.errored e => ([ConsumerAction.warnConsume e], false)
  | DeliveryResult.okSome d =>
    if utf8Valid d.data then
      ([ConsumerAction.render d.routing_key (renderHeaders d.headers) d.data,
        ConsumerAction.ack d.delivery_tag], false)
    else ([], true)

/-- The actions of a whole stream of delivery results, one delegate
invocation per element. -/
def processStream (rs : List DeliveryResult) : List ConsumerAction :=
  (rs.map (fun r => (handleDelivery r).1)).flatten

/-- The broker-assigned tags of the actual deliveries in a stream. -/
def tagsOf (rs : List DeliveryResult) : List Nat :=
  rs.filterMap (fun r =>
    match r with
    | DeliveryResult.okSome d => some d.delivery_tag
    | _ => none)

/-- The session-level actions of the two programs around shutdown. -/
inductive SessionAction where
  | channelClose (code : Nat) (reason : String)
  | connectionClose (code : Nat) (reason : String)
  | logInfo (msg : String)
  | logError (msg : String)
deriving DecidableEq

/-- Whether an action closes the channel or the connection. -/
def SessionAction.isClose : SessionAction → Bool
  | SessionAction.channelClose _ _ => true
  | SessionAction.connectionClose _ _ => true
  | _ => false

/-- The close actions occurring in a list, in order. -/
def closesOf (as : List SessionAction) : List SessionAction :=
  as.filter SessionAction.isClose

/-- The result of awaiting the interrupt signal in the subscriber. -/
inductive SignalResult where
  | ok
  | err (e : String)
deriving DecidableEq

/-- Embeds the tail of the subscriber's main, from the ctrl-c match to the
final Ok: the session actions performed and the process exit code. -/
def subscriberShutdown : SignalResult → List SessionAction × Nat
  | SignalResult.ok =>
      ([SessionAction.channelClose 0 "OK", SessionAction.connectionClose 0 "OK",
        SessionAction.logInfo "Shutting Down"], 0)
  | SignalResult.err e =>
      ([SessionAction.logError ("Unable to listen for shutdown signal: " ++ e),
        SessionAction.logInfo "Shutting Down"], 0)

/-- Embeds the tail of the publisher's main after the operator loop ends:
a log line and Ok, with no session-close call. -/
def publisherExitActions : List SessionAction :=
  [SessionAction.logInfo "Finishing off and cleaning up"]

/-- Embeds Rust str::is_char_boundary on the byte list of a line: position 0
is a boundary, the end of the list is a boundary, and an interior position is
a boundary exactly when its byte is not a continuation byte. -/
def is_char_boundary (s : List Nat) (i : Nat) : Bool :=
  if i == 0 then true
  else
    match s.get? i with
    | none => i == s.length
    | some b => !(0x80 ≤ b && b ≤ 0xBF)

/-- Embeds one step of the log-parser pipeline on a line's bytes: the slice
from byte 33 panics (error) unless 33 is in range and a char boundary;
otherwise the remainder is dropped when it starts with two dashes and
emitted otherwise. -/
def processLine (s : List Nat) : Except Unit (Option (List Nat)) :=
  if 33 ≤ s.length && is_char_boundary s 33 then
    let rest := s.drop 33
    if rest.take 2 == [0x2D, 0x2D] then Except.ok none
    else Except.ok (some rest)
  else Except.error ()

/-- Embeds the whole log-parser pipeline over the file's lines: emitted lines
in order, plus whether the run aborted on a panicking line (no later line is
processed after an abort). -/
def processLines : List (List Nat) → List (List Nat) × Bool
  | [] => ([], false)
  | s :: rest =>
    match processLine s with
    | Except.error _ => ([], true)
    | Except.ok none => processLines rest
    | Except.ok (some out) =>
        ((out :: (processLines rest).1), (processLines rest).2)

end Rabbit

namespace Rabbit

/-- Claim C1: every confirm response yields exactly one outcome; an ack with a
returned message is rejected-by-broker and a failure, an ack with none is
accepted, a nack is not-acknowledged, and anything else is unknown, both
failures. -/
theorem confirm_outcome_classification (c : Confirm) :
    (∀ m, c = Confirm.ack (some m) →
        publishResolve c = (ConfirmOutcome.rejectedByBroker m.reply_code m.reply_text, false))
    ∧ (c = Confirm.ack none → publishResolve c = (ConfirmOutcome.accepted, true))
    ∧ (∀ m, c = Confirm.nack m →
        publishResolve c = (ConfirmOutcome.notAcknowledged, false))
    ∧ (c = Confirm.notRequested → publishResolve c = (ConfirmOutcome.unknown, false)) := by
  refine ⟨?_, ?_, ?_, ?_⟩ <;> intro h
  · intro hc; subst hc; rfl
  · subst h; rfl
  · intro hc; subst hc; rfl
  · subst h; rfl

/-- Witness for C1: the classification evaluated on one concrete confirm of
each shape. -/
theorem confirm_outcome_classification_witness :
    publishResolve (Confirm.ack (some ⟨312, "NO_ROUTE"⟩))
        = (ConfirmOutcome.rejectedByBroker 312 "NO_ROUTE", false)
    ∧ publishResolve (Confirm.ack none) = (ConfirmOutcome.accepted, true)
    ∧ publishResolve (Confirm.nack none) = (ConfirmOutcome.notAcknowledged, false)
    ∧ publishResolve Confirm.notRequested = (ConfirmOutcome.unknown, false) :=
  ⟨(confirm_outcome_classification _).1 ⟨312, "NO_ROUTE"⟩ rfl,
   (confirm_outcome_classification _).2.1 rfl,
   (confirm_outcome_classification _).2.2.1 none rfl,
   (confirm_outcome_classification _).2.2.2 rfl⟩

/-- Claim C4 counterexample: the publisher's normal-completion exit path
issues no close action at all, so the session is not closed on every exit
path of both programs. -/
theorem close_paths_counterexample :
    closesOf publisherExitActions = []
    ∧ ¬ ∃ code reason, SessionAction.channelClose code reason ∈ publisherExitActions := by
  constructor
  · rfl
  · rintro ⟨c, r, hm⟩
    simp [publisherExitActions] at hm

/-- Claim C4 amended: the subscriber, on a clean interrupt, issues exactly a
channel close followed by a connection close, each with status 0 and reason
OK, and exits 0; the publisher issues no close on its exit path, and the
subscriber issues none when signal registration fails. -/
theorem close_paths_amended :
    closesOf (subscriberShutdown SignalResult.ok).1
        = [SessionAction.channelClose 0 "OK", SessionAction.connectionClose 0 "OK"]
    ∧ (subscriberShutdown SignalResult.ok).2 = 0
    ∧ (∀ e, closesOf (subscriberShutdown (SignalResult.err e)).1 = [])
    ∧ closesOf publisherExitActions = [] :=
  ⟨rfl, rfl, fun _ => rfl, rfl⟩

/-- Claim C7 counterexample: when the interrupt listener fails to register,
the subscriber still returns Ok, so the process exit code is 0 — the claim
that it exits non-zero is false. -/
theorem signal_failure_counterexample :
    (subscriberShutdown (SignalResult.err "signal subsystem unavailable")).2 = 0
    ∧ ¬ (subscriberShutdown (SignalResult.err "signal subsystem unavailable")).2 ≠ 0 := by
  refine ⟨rfl, ?_⟩
  intro h
  exact h rfl

/-- Claim C7 amended: when the interrupt listener fails to register, the
failure is reported in the log, no close is attempted, and the process still
exits 0 (main returns Ok). -/
theorem signal_failure_amended (e : String) :
    SessionAction.logError ("Unable to listen for shutdown signal: " ++ e)
        ∈ (subscriberShutdown (SignalResult.err e)).1
    ∧ closesOf (subscriberShutdown (SignalResult.err e)).1 = []
    ∧ (subscriberShutdown (SignalResult.err e)).2 = 0 := by
  refine ⟨?_, rfl, rfl⟩
  simp [subscriberShutdown]

/-- Claim C6: with no headers flag the outgoing properties carry no headers
property at all; with the flag present a headers property is attached even
when every entry is invalid and the map is empty, and that empty map is
distinct from the absent one. -/
theorem headers_option_distinction :
    (mkProperties (cliHeaders none)).headers = none
    ∧ (∀ l, (mkProperties (cliHeaders (some l))).headers = some (parseHeaders l).1)
    ∧ (mkProperties (cliHeaders (some ["bad"]))).headers = some ([] : FieldTable)
    ∧ some ([] : FieldTable) ≠ (none : Option FieldTable) := by
  refine ⟨rfl, fun l => rfl, by decide, by simp⟩

/-- Claim C8: a delivery whose payload is not valid UTF-8 makes the
delegate's unwrap panic, and no acknowledgement action is performed for it. -/
theorem invalid_utf8_panics (d : Delivery) (h : utf8Valid d.data = false) :
    (handleDelivery (DeliveryResult.okSome d)).2 = true
    ∧ ∀ t, ConsumerAction.ack t ∉ (handleDelivery (DeliveryResult.okSome d)).1 := by
  refine ⟨?_, ?_⟩ <;> simp [handleDelivery, h]

/-- Witness for C8: a single 0xFF payload byte is invalid UTF-8, panics, and
is never acknowledged. -/
theorem invalid_utf8_panics_witness :
    utf8Valid [255] = false
    ∧ ((handleDelivery (DeliveryResult.okSome ⟨"rk", none, [255], 7⟩)).2 = true
        ∧ ∀ t, ConsumerAction.ack t
            ∉ (handleDelivery (DeliveryResult.okSome ⟨"rk", none, [255], 7⟩)).1) :=
  ⟨by decide, invalid_utf8_panics ⟨"rk", none, [255], 7⟩ (by decide)⟩

/-- Claim C9: a header value that is not a long string renders as the key
followed by an empty value, never as an error. -/
theorem header_render_lenient (k : String) (v : AMQPValue) (h : v.as_long_string = none) :
    renderHeader k v = k ++ "=" := by
  simp [renderHeader, h]

/-- Witness for C9: a boolean header value renders with an empty value. -/
theorem header_render_lenient_witness :
    AMQPValue.as_long_string (AMQPValue.boolean true) = none
    ∧ renderHeader "count" (AMQPValue.boolean true) = "count" ++ "=" :=
  ⟨rfl, header_render_lenient "count" (AMQPValue.boolean true) rfl⟩

/-- Lookup after insert: the inserted key maps to the new value and every
other key is unaffected. -/
theorem findVal_ftInsert (ft : FieldTable) (k k2 : String) (v : AMQPValue) :
    findVal k2 (ftInsert ft k v) = if k2 == k then some v else findVal k2 ft := by
  induction ft with
  | nil =>
    by_cases h : k2 = k
    · subst h
      simp [findVal, ftInsert]
    · simp [findVal, ftInsert, beq_iff_eq, h, Ne.symm h]
  | cons p rest ih =>
    by_cases hp : p.1 = k
    · by_cases h : k2 = k
      · subst h
        simp [findVal, ftInsert, beq_iff_eq, hp]
      · simp [findVal, ftInsert, beq_iff_eq, hp, h, Ne.symm h]
    · by_cases h2 : p.1 = k2
      · have hne : ¬ k2 = k := fun he => hp (h2.trans he)
        simp [findVal, ftInsert, beq_iff_eq, hp, h2, hne]
      · simp [findVal, ftInsert, beq_iff_eq, hp, h2, ih]

/-- A key present after an insert was present before or is the inserted one. -/
theorem mem_keysOf_ftInsert (ft : FieldTable) (k : String) (v : AMQPValue)
    (x : String) (h : x ∈ keysOf (ftInsert ft k v)) : x ∈ keysOf ft ∨ x = k := by
  induction ft with
  | nil =>
    simp [keysOf, ftInsert] at h
    exact Or.inr h
  | cons p rest ih =>
    by_cases hp : p.1 = k
    · simp [keysOf, ftInsert, beq_iff_eq, hp] at h
      rcases h with h | h
      · exact Or.inr h
      · exact Or.inl (by simp [keysOf, h])
    · simp [keysOf, ftInsert, beq_iff_eq, hp] at h
      rcases h with h | h
      · exact Or.inl (by simp [keysOf, h])
      · rcases ih (by simpa [keysOf] using h) with h2 | h2
        · exact Or.inl (by simp [keysOf]; exact Or.inr (by simpa [keysOf] using h2))
        · exact Or.inr h2

/-- Insert preserves distinctness of the keys. -/
theorem keysOf_ftInsert_nodup (ft : FieldTable) (k : String) (v : AMQPValue)
    (h : (keysOf ft).Nodup) : (keysOf (ftInsert ft k v)).Nodup := by
  induction ft with
  | nil => simp [keysOf, ftInsert]
  | cons p rest ih =>
    have hcons := List.nodup_cons.mp (show (p.1 :: keysOf rest).Nodup from h)
    by_cases hp : p.1 = k
    · have he : keysOf (ftInsert (p :: rest) k v) = k :: keysOf rest := by
        simp [keysOf, ftInsert, beq_iff_eq, hp]
      rw [he]
      exact List.nodup_cons.mpr ⟨by rw [← hp]; exact hcons.1, hcons.2⟩
    · have he : keysOf (ftInsert (p :: rest) k v) = p.1 :: keysOf (ftInsert rest k v) := by
        simp [keysOf, ftInsert, beq_iff_eq, hp]
      rw [he]
      refine List.nodup_cons.mpr ⟨?_, ih hcons.2⟩
      intro hmem
      rcases mem_keysOf_ftInsert rest k v p.1 hmem with h2 | h2
      · exact hcons.1 h2
      · exact hp h2

/-- The table built by the headers fold looks up a key to the value of the
last entry parsing to that key, or to the accumulator's value for that key
when no entry does. -/
theorem headersFold_findVal (es : List String) :
    ∀ (ft : FieldTable) (ws : List String) (k : String),
      findVal k (headersFold (ft, ws) es).1
        = ((lastValue k es).map AMQPValue.longString).or (findVal k ft) := by
  induction es with
  | nil => intro ft ws k; simp [headersFold, lastValue]
  | cons s rest ih =>
    intro ft ws k
    cases hps : parseEntry s with
    | some kv =>
      rw [show headersFold (ft, ws) (s :: rest)
            = headersFold (ftInsert ft kv.1 (AMQPValue.longString kv.2), ws) rest by
          simp [headersFold, hps]]
      rw [ih]
      cases hlv : lastValue k rest with
      | some v => simp [lastValue, hlv, hps]
      | none =>
        simp only [lastValue, hlv, hps, findVal_ftInsert]
        by_cases hk : kv.1 = k
        · simp [beq_iff_eq, hk]
        · have hk2 : ¬ k = kv.1 := fun he => hk (Eq.symm he)
          simp [beq_iff_eq, hk, hk2]
    | none =>
      rw [show headersFold (ft, ws) (s :: rest) = headersFold (ft, ws ++ [s]) rest by
          simp [headersFold, hps]]
      rw [ih]
      cases hlv : lastValue k rest with
      | some v => simp [lastValue, hlv, hps]
      | none => simp [lastValue, hlv, hps]

/-- The warnings of the headers fold are exactly the entries that do not
parse, appended in order to the accumulated warnings. -/
theorem headersFold_warnings (es : List String) :
    ∀ (ft : FieldTable) (ws : List String),
      (headersFold (ft, ws) es).2 = ws ++ es.filter (fun s => (parseEntry s).isNone) := by
  induction es with
  | nil => intro ft ws; simp [headersFold]
  | cons s rest ih =>
    intro ft ws
    cases hps : parseEntry s with
    | some kv => simp [headersFold, hps, ih]
    | none => simp [headersFold, hps, ih]

/-- The headers fold preserves distinctness of the keys. -/
theorem headersFold_keys_nodup (es : List String) :
    ∀ (ft : FieldTable) (ws : List String), (keysOf ft).Nodup →
      (keysOf (headersFold (ft, ws) es).1).Nodup := by
  induction es with
  | nil => intro ft ws h; simpa [headersFold] using h
  | cons s rest ih =>
    intro ft ws h
    cases hps : parseEntry s with
    | some kv =>
      rw [show headersFold (ft, ws) (s :: rest)
            = headersFold (ftInsert ft kv.1 (AMQPValue.longString kv.2), ws) rest by
          simp [headersFold, hps]]
      exact ih _ ws (keysOf_ftInsert_nodup ft kv.1 _ h)
    | none =>
      rw [show headersFold (ft, ws) (s :: rest) = headersFold (ft, ws ++ [s]) rest by
          simp [headersFold, hps]]
      exact ih _ _ h

/-- Taking up to the separator from a list that opens with separator-free
characters returns exactly those characters. -/
theorem takeWhile_no_sep (l1 l2 : List Char) (h : ∀ c ∈ l1, c ≠ '=') :
    (l1 ++ '=' :: l2).takeWhile (fun c => c != '=') = l1 := by
  induction l1 with
  | nil => simp [List.takeWhile_cons]
  | cons a r ih =>
    have ha : a ≠ '=' := h a (List.mem_cons_self a r)
    simp only [List.cons_append, List.takeWhile_cons, bne_iff_ne, ne_eq, ha,
      not_false_eq_true, if_true, decide_True]
    exact congrArg (a :: ·) (ih (fun c hc => h c (List.mem_cons_of_mem a hc)))

/-- Dropping up to the separator from such a list lands exactly on the
separator. -/
theorem dropWhile_no_sep (l1 l2 : List Char) (h : ∀ c ∈ l1, c ≠ '=') :
    (l1 ++ '=' :: l2).dropWhile (fun c => c != '=') = '=' :: l2 := by
  induction l1 with
  | nil => simp [List.dropWhile_cons]
  | cons a r ih =>
    have ha : a ≠ '=' := h a (List.mem_cons_self a r)
    simp only [List.cons_append, List.dropWhile_cons, bne_iff_ne, ne_eq, ha,
      not_false_eq_true, if_true, decide_True]
    exact ih (fun c hc => h c (List.mem_cons_of_mem a hc))

/-- One delegate invocation acknowledges any given tag at most once. -/
theorem handleDelivery_count_le_one (r : DeliveryResult) (t : Nat) :
    ((handleDelivery r).1.count (ConsumerAction.ack t)) ≤ 1 := by
  cases r with
  | okNone => simp [handleDelivery]
  | errored e => simp [handleDelivery, List.count_cons]
  | okSome d =>
    by_cases h : utf8Valid d.data
    · simp only [handleDelivery, h, if_true]
      simp [List.count_cons]
      split <;> simp
    · simp [handleDelivery, h]

/-- An acknowledgement produced by one delegate invocation carries the tag of
that invocation's delivery. -/
theorem handleDelivery_ack_tag (r : DeliveryResult) (t : Nat)
    (h : (handleDelivery r).1.count (ConsumerAction.ack t) ≠ 0) :
    ∃ d, r = DeliveryResult.okSome d ∧ d.delivery_tag = t := by
  cases r with
  | okNone => simp [handleDelivery] at h
  | errored e => simp [handleDelivery, List.count_cons] at h
  | okSome d =>
    refine ⟨d, rfl, ?_⟩
    by_cases hv : utf8Valid d.data
    · simp only [handleDelivery, hv, if_true] at h
      simp [List.count_cons] at h
      omega
    · simp [handleDelivery, hv] at h

/-- A tag acknowledged somewhere in a stream belongs to a delivery of that
stream. -/
theorem processStream_ack_mem (rs : List DeliveryResult) (t : Nat)
    (h : (processStream rs).count (ConsumerAction.ack t) ≠ 0) :
    t ∈ tagsOf rs := by
  induction rs with
  | nil => simp [processStream] at h
  | cons r rest ih =>
    have hsplit : (processStream (r :: rest)).count (ConsumerAction.ack t)
        = ((handleDelivery r).1.count (ConsumerAction.ack t))
          + (processStream rest).count (ConsumerAction.ack t) := by
      simp [processStream, List.count_append]
    rw [hsplit] at h
    by_cases hh : (handleDelivery r).1.count (ConsumerAction.ack t) = 0
    · have hrest : (processStream rest).count (ConsumerAction.ack t) ≠ 0 := by omega
      have := ih hrest
      cases r <;> simp [tagsOf] at this ⊢ <;> simp [this]
    · obtain ⟨d, rfl, htag⟩ := handleDelivery_ack_tag r t hh
      simp [tagsOf, htag.symm]

/-- In a stream whose delivery tags are distinct, no tag is acknowledged
more than once. -/
theorem processStream_count_le_one (rs : List DeliveryResult)
    (hnd : (tagsOf rs).Nodup) (t : Nat) :
    ((processStream rs).count (ConsumerAction.ack t)) ≤ 1 := by
  induction rs with
  | nil => simp [processStream]
  | cons r rest ih =>
    have hsplit : (processStream (r :: rest)).count (ConsumerAction.ack t)
        = ((handleDelivery r).1.count (ConsumerAction.ack t))
          + (processStream rest).count (ConsumerAction.ack t) := by
      simp [processStream, List.count_append]
    rw [hsplit]
    have hrest_nd : (tagsOf rest).Nodup := by
      cases r with
      | okSome d =>
        have he : tagsOf (DeliveryResult.okSome d :: rest)
            = d.delivery_tag :: tagsOf rest := by simp [tagsOf]
        rw [he] at hnd
        exact (List.nodup_cons.mp hnd).2
      | okNone =>
        have he : tagsOf (DeliveryResult.okNone :: rest) = tagsOf rest := by
          simp [tagsOf]
        rwa [he] at hnd
      | errored e =>
        have he : tagsOf (DeliveryResult.errored e :: rest) = tagsOf rest := by
          simp [tagsOf]
        rwa [he] at hnd
    by_cases hh : (handleDelivery r).1.count (ConsumerAction.ack t) = 0
    · rw [hh]
      simpa using ih hrest_nd
    · obtain ⟨d, rfl, htag⟩ := handleDelivery_ack_tag r t hh
      have hmem : d.delivery_tag ∉ tagsOf rest := by
        have he : tagsOf (DeliveryResult.okSome d :: rest)
            = d.delivery_tag :: tagsOf rest := by simp [tagsOf]
        rw [he] at hnd
        exact (List.nodup_cons.mp hnd).1
      have hzero : (processStream rest).count (ConsumerAction.ack t) = 0 := by
        by_contra hne
        exact hmem (htag ▸ processStream_ack_mem rest t hne)
      rw [hzero]
      have hle := handleDelivery_count_le_one (DeliveryResult.okSome d) t
      omega

/-- A line with fewer than 33 bytes makes the byte slice panic. -/
theorem processLine_short (s : List Nat) (h : s.length < 33) :
    processLine s = Except.error () := by
  have hn : ¬ 33 ≤ s.length := Nat.not_le.mpr h
  simp [processLine, hn]

/-- Once any line of the input panics, the whole run aborts. -/
theorem processLines_abort_of_mem (lines : List (List Nat)) (s : List Nat)
    (hmem : s ∈ lines) (herr : processLine s = Except.error ()) :
    (processLines lines).2 = true := by
  induction lines with
  | nil => cases hmem
  | cons a rest ih =>
    rcases List.mem_cons.mp hmem with heq | hmem2
    · subst heq
      simp [processLines, herr]
    · cases hpa : processLine a with
      | error u => simp [processLines, hpa]
      | ok o =>
        cases o with
        | none => simpa [processLines, hpa] using ih hmem2
        | some out => simpa [processLines, hpa] using ih hmem2

/-- Claim C10: a line of at least 33 bytes with a char boundary at byte 33 is
emitted with exactly its first 33 bytes removed (or suppressed when the
remainder starts with two dashes); a line shorter than 33 bytes panics the
slice and aborts the run. -/
theorem log_strip_behaviour :
    (∀ s : List Nat, 33 ≤ s.length → is_char_boundary s 33 = true →
        processLine s
            = Except.ok (if (s.drop 33).take 2 = [0x2D, 0x2D] then none else some (s.drop 33))
        ∧ s.take 33 ++ s.drop 33 = s ∧ (s.take 33).length = 33)
    ∧ (∀ s : List Nat, s.length < 33 → processLine s = Except.error ())
    ∧ (∀ (lines : List (List Nat)) (s : List Nat), s ∈ lines → s.length < 33 →
        (processLines lines).2 = true) := by
  refine ⟨?_, processLine_short, ?_⟩
  · intro s h1 h2
    refine ⟨?_, List.take_append_drop 33 s, ?_⟩
    · simp only [processLine, h1, h2, decide_True, Bool.and_self, if_true]
      by_cases hqq : (s.drop 33).take 2 = [0x2D, 0x2D]
      · simp [hqq]
      · simp [hqq]
    · simp [List.length_take, Nat.min_eq_left h1]
  · intro lines s hmem hshort
    exact processLines_abort_of_mem lines s hmem (processLine_short s hshort)

/-- Claim C2: a delivery whose payload decodes (and so reaches the render
step) is acknowledged exactly once with its own tag, any tag is acknowledged
at most once per invocation, and across a stream with distinct broker tags no
tag is ever acknowledged twice. -/
theorem delivery_ack_exactly_once :
    (∀ d : Delivery, utf8Valid d.data = true →
        ((handleDelivery (DeliveryResult.okSome d)).1.count
            (ConsumerAction.ack d.delivery_tag)) = 1
        ∧ ∀ t, ((handleDelivery (DeliveryResult.okSome d)).1.count
            (ConsumerAction.ack t)) ≤ 1)
    ∧ (∀ rs : List DeliveryResult, (tagsOf rs).Nodup →
        ∀ t, ((processStream rs).count (ConsumerAction.ack t)) ≤ 1) := by
  refine ⟨?_, fun rs h t => processStream_count_le_one rs h t⟩
  intro d h
  constructor
  · simp [handleDelivery, h, List.count_cons]
  · intro t
    exact handleDelivery_count_le_one _ t

/-- Witness for C2: a two-delivery stream with distinct tags, the first of
which renders and is acknowledged exactly once. -/
theorem delivery_ack_exactly_once_witness :
    (((handleDelivery (DeliveryResult.okSome ⟨"rk", none, [72, 105], 1⟩)).1.count
        (ConsumerAction.ack 1)) = 1
      ∧ ∀ t, ((handleDelivery (DeliveryResult.okSome ⟨"rk", none, [72, 105], 1⟩)).1.count
        (ConsumerAction.ack t)) ≤ 1)
    ∧ ∀ t, ((processStream
        [DeliveryResult.okSome ⟨"rk", none, [72, 105], 1⟩,
         DeliveryResult.okSome ⟨"rk", none, [33], 2⟩]).count (ConsumerAction.ack t)) ≤ 1 :=
  ⟨delivery_ack_exactly_once.1 ⟨"rk", none, [72, 105], 1⟩ (by decide),
   delivery_ack_exactly_once.2
     [DeliveryResult.okSome ⟨"rk", none, [72, 105], 1⟩,
      DeliveryResult.okSome ⟨"rk", none, [33], 2⟩] (by decide)⟩

/-- Witness for C10: a 34-byte ASCII line is emitted with its first 33 bytes
removed, and a 2-byte line panics and aborts the run. -/
theorem log_strip_behaviour_witness :
    (processLine (List.replicate 33 97 ++ [98])
        = Except.ok (if ((List.replicate 33 97 ++ [98]).drop 33).take 2 = [0x2D, 0x2D] then none
            else some ((List.replicate 33 97 ++ [98]).drop 33))
      ∧ (List.replicate 33 97 ++ [98]).take 33 ++ (List.replicate 33 97 ++ [98]).drop 33
          = List.replicate 33 97 ++ [98]
      ∧ ((List.replicate 33 97 ++ [98]).take 33).length = 33)
    ∧ processLine [104, 105] = Except.error ()
    ∧ (processLines [[104, 105]]).2 = true :=
  ⟨log_strip_behaviour.1 (List.replicate 33 97 ++ [98]) (by decide) (by decide),
   log_strip_behaviour.2.1 [104, 105] (by decide),
   log_strip_behaviour.2.2 [[104, 105]] [104, 105] (by simp) (by decide)⟩

/-- Claim C5: the parsed header map has distinct keys, looks each key up to
the value of the last entry that parses to it, and drops each separator-free
entry with a warning while the remaining entries are still parsed. -/
theorem header_map_last_wins (entries : List String) :
    (keysOf (parseHeaders entries).1).Nodup
    ∧ (∀ k, findVal k (parseHeaders entries).1
        = (lastValue k entries).map AMQPValue.longString)
    ∧ (parseHeaders entries).2 = entries.filter (fun s => (parseEntry s).isNone) := by
  refine ⟨?_, ?_, ?_⟩
  · exact headersFold_keys_nodup entries [] [] (by simp [keysOf])
  · intro k
    have hfold := headersFold_findVal entries [] [] k
    simpa [parseHeaders, findVal] using hfold
  · simpa [parseHeaders] using headersFold_warnings entries [] []

/-- Claim C3 counterexample: the entry k=a=b parses to key k and value a,
not to the claimed value a=b — the remainder after the first separator is
truncated at the second separator. -/
theorem header_split_counterexample :
    parseEntry "k=a=b" = some ("k", "a")
    ∧ parseEntry "k=a=b" ≠ some ("k", "a=b") := by
  decide

/-- Claim C3 amended: every entry containing at least one separator splits at
the first one; the key is the segment before the first separator and the
value is the remainder truncated at the next separator if any. So a
single-separator entry keeps its whole remainder as the value, while an
entry with a second separator loses everything from that second separator
on; the general form is stated for every string containing a separator. -/
theorem header_split_amended :
    (∀ k v : String, (∀ c ∈ k.toList, c ≠ '=') → (∀ c ∈ v.toList, c ≠ '=') →
        parseEntry (k ++ "=" ++ v) = some (k, v))
    ∧ (∀ k v1 v2 : String, (∀ c ∈ k.toList, c ≠ '=') → (∀ c ∈ v1.toList, c ≠ '=') →
        parseEntry (k ++ "=" ++ v1 ++ "=" ++ v2) = some (k, v1))
    ∧ (∀ s : String, '=' ∈ s.toList →
        parseEntry s
          = some (String.mk (s.toList.takeWhile (fun c => c != '=')),
              String.mk (((s.toList.dropWhile (fun c => c != '=')).tail).takeWhile
                (fun c => c != '=')))) := by
  refine ⟨?_, ?_, ?_⟩
  · intro k v hk hv
    have hafter : afterFirst (k.data ++ '=' :: v.data) = some v.data := by
      unfold afterFirst
      rw [dropWhile_no_sep k.data v.data hk]
    have hfs1 : firstSegment (k.data ++ '=' :: v.data) = k.data :=
      takeWhile_no_sep k.data v.data hk
    have hfs2 : firstSegment v.data = v.data := by
      unfold firstSegment
      exact List.takeWhile_eq_self_iff.mpr (fun c hc => by simp [hv c hc])
    simp [parseEntry, hafter, hfs1, hfs2]
  · intro k v1 v2 hk hv
    have hafter : afterFirst (k.data ++ '=' :: (v1.data ++ '=' :: v2.data))
        = some (v1.data ++ '=' :: v2.data) := by
      unfold afterFirst
      rw [dropWhile_no_sep k.data (v1.data ++ '=' :: v2.data) hk]
    have hfs1 : firstSegment (k.data ++ '=' :: (v1.data ++ '=' :: v2.data)) = k.data :=
      takeWhile_no_sep k.data (v1.data ++ '=' :: v2.data) hk
    have hfs2 : firstSegment (v1.data ++ '=' :: v2.data) = v1.data :=
      takeWhile_no_sep v1.data v2.data hv
    simp [parseEntry, hafter, hfs1, hfs2]
  · intro s h
    cases hd : s.toList.dropWhile (fun c => c != '=') with
    | nil =>
      exfalso
      have hall := List.dropWhile_eq_nil_iff.mp hd '=' h
      simp at hall
    | cons a tl =>
      have hafter : afterFirst s.data = some tl := by
        unfold afterFirst
        rw [show List.dropWhile (fun c => c != '=') s.data = a :: tl from hd]
      have htl : (s.toList.dropWhile (fun c => c != '=')).tail = tl := by
        rw [hd]
        rfl
      simp [parseEntry, hafter, firstSegment, htl]

/-- Witness for C3 amended: key=value keeps the whole remainder, k=a=b is
truncated at the second separator, and the general form evaluated on x=y=z. -/
theorem header_split_amended_witness :
    parseEntry ("key" ++ "=" ++ "value") = some ("key", "value")
    ∧ parseEntry ("k" ++ "=" ++ "a" ++ "=" ++ "b") = some ("k", "a")
    ∧ parseEntry "x=y=z"
        = some (String.mk ("x=y=z".toList.takeWhile (fun c => c != '=')),
            String.mk ((("x=y=z".toList.dropWhile (fun c => c != '=')).tail).takeWhile
              (fun c => c != '='))) :=
  ⟨header_split_amended.1 "key" "value" (by decide) (by decide),
   header_split_amended.2.1 "k" "a" "b" (by decide) (by decide),
   header_split_amended.2.2 "x=y=z" (by decide)⟩

end Rabbit
